import Mathlib

/-!
Shallow embedding of the `net` overlay rewriter of goccy/wasi-go-net.

The Go program discovers the files of the standard `net` package that
declare `(*Dialer).DialContext` or a free `Listen` function, rewrites the
bodies of those functions into delegating calls to `_dialContext` /
`_listen`, appends `go:linkname` stub declarations, and packages the
rewritten sources into a build overlay manifest.

The embedding models the fragment of the Go AST that the program inspects
or constructs, and translates each Go function into a Lean function over
that model.  Filesystem effects (temp-file creation, removal) are modelled
by explicit state passing.
-/

namespace WasiGoNet

/-- Go expressions, as far as the rewriter inspects or constructs them.
`exprOther` stands for any expression shape the program never looks into. -/
inductive Expr where
  | ident (name : String)
  | star (x : Expr)
  | select (x : Expr) (sel : String)
  | call (fn : Expr) (args : List Expr)
  | exprOther (tag : String)

/-- Go statements: the rewriter only ever constructs a return statement;
every pre-existing statement is opaque (`stmtOther`). -/
inductive Stmt where
  | ret (results : List Expr)
  | stmtOther (tag : String)

/-- A field of a Go `ast.FieldList`: a list of names sharing one type
(`(network, address string)` is one field with two names). -/
structure Field where
  names : List String
  type : Expr

/-- An `ast.ImportSpec`: optional local name and the quoted path literal
(`imp.Path.Value` includes the surrounding quotes). -/
structure ImportSpec where
  name : Option String
  path : String
deriving DecidableEq

/-- The `ast.GenDecl` token: the program only distinguishes `token.IMPORT`. -/
inductive Tok where
  | importTok
  | otherTok
deriving DecidableEq

/-- A spec inside a `GenDecl`: an import spec or anything else. -/
inductive Spec where
  | importSpec (s : ImportSpec)
  | specOther (tag : String)
deriving DecidableEq

/-- An `ast.GenDecl`. -/
structure GenDecl where
  tok : Tok
  specs : List Spec

/-- An `ast.FuncDecl`: doc comment lines, receiver field list (the Go
`Recv *ast.FieldList` is nil or a list of fields), name, parameter and
result fields, and an optional body (a list of statements). -/
structure FuncDecl where
  doc : List String
  name : String
  recv : Option (List Field)
  params : List Field
  results : List Field
  body : Option (List Stmt)

/-- A top-level declaration. -/
inductive Decl where
  | func (fd : FuncDecl)
  | gen (gd : GenDecl)
  | declOther (tag : String)

/-- An `ast.File`: the `Imports` metadata list and the declarations. -/
structure AstFile where
  imports : List ImportSpec
  decls : List Decl

/-! ## PatternMatcher: the two structural predicates of `GetReplacedNetSources` -/

/-- The dial matcher passed to `findSourcePaths` by `GetReplacedNetSources`:
name `DialContext`, receiver list nonempty, first receiver field has at
least one name, and its type is `*Dialer`. -/
def dialMatcher (decl : FuncDecl) : Bool :=
  if decl.name != "DialContext" then false
  else
    match decl.recv with
    | none => false
    | some [] => false
    | some (fld :: _) =>
      if fld.names.length == 0 then false
      else
        match fld.type with
        | Expr.star (Expr.ident n) => n == "Dialer"
        | _ => false

/-- The listen matcher passed to `findSourcePaths`: name `Listen` and no
receiver. -/
def listenMatcher (decl : FuncDecl) : Bool :=
  decl.name == "Listen" && decl.recv.isNone

/-- Whether a parsed file contains a function declaration satisfying one of
the matchers; an unreadable or unparsable file (`none`) never matches
(the Go loop `continue`s over it). -/
def fileMatches (matchers : List (FuncDecl → Bool)) : Option AstFile → Bool
  | none => false
  | some f =>
    f.decls.any fun d =>
      match d with
      | Decl.func fd => matchers.any fun m => m fd
      | _ => false

/-- Model of `findSourcePaths`: candidate files are path plus parse result; the Go
code collects matching paths into a map (deduplicating) and returns them
sorted with `sort.Strings`. -/
def findSourcePaths (netPkgFiles : List (String × Option AstFile))
    (matchers : List (FuncDecl → Bool)) : List String :=
  List.insertionSort (· ≤ ·)
    (((netPkgFiles.filter fun e => fileMatches matchers e.2).map Prod.fst).dedup)

/-! ## SourceRewriter: `createReplacedNetSource` -/

/-- The `_ "unsafe"` import spec the rewriter constructs. -/
def unsafeImportSpec : ImportSpec := { name := some "_", path := "\"unsafe\"" }

/-- The rewriter's check `imp.Path.Value == "\"unsafe\""` over
`astFile.Imports`: it looks only at the import path, not at the name. -/
def hasUnsafeImport (f : AstFile) : Bool :=
  f.imports.any fun imp => imp.path == "\"unsafe\""

/-- Append a spec to the last `token.IMPORT` `GenDecl` of the declaration
list; `none` when there is no import declaration. -/
def addSpecToLastImport (s : Spec) : List Decl → Option (List Decl)
  | [] => none
  | d :: ds =>
    match addSpecToLastImport s ds with
    | some ds2 => some (d :: ds2)
    | none =>
      match d with
      | Decl.gen gd =>
        if gd.tok == Tok.importTok then
          some (Decl.gen { gd with specs := gd.specs ++ [s] } :: ds)
        else none
      | _ => none

/-- The import-hygiene step of `createReplacedNetSource`: when no import of
path `"unsafe"` exists, add `_ "unsafe"` to the `Imports` metadata and to
the last import declaration group, or prepend a new import declaration when
the file has none. -/
def addUnsafeImport (f : AstFile) : AstFile :=
  if hasUnsafeImport f then f
  else
    match addSpecToLastImport (Spec.importSpec unsafeImportSpec) f.decls with
    | some decls2 => { imports := f.imports ++ [unsafeImportSpec], decls := decls2 }
    | none =>
      { imports := f.imports ++ [unsafeImportSpec]
        decls := Decl.gen { tok := Tok.importTok, specs := [Spec.importSpec unsafeImportSpec] }
          :: f.decls }

/-- The replacement body built for a matched `DialContext`:
`return _dialContext(ctx, network, address)` with hardcoded identifiers. -/
def dialContextBody : List Stmt :=
  [Stmt.ret [Expr.call (Expr.ident "_dialContext")
    [Expr.ident "ctx", Expr.ident "network", Expr.ident "address"]]]

/-- The replacement body built for a matched `Listen`:
`return _listen(network, address)` with hardcoded identifiers. -/
def listenBody : List Stmt :=
  [Stmt.ret [Expr.call (Expr.ident "_listen")
    [Expr.ident "network", Expr.ident "address"]]]

/-- The rewrite-pass dial condition of `createReplacedNetSource`:
`funcName == "DialContext" && funcDecl.Recv != nil` (note: it does not
examine the receiver type). -/
def dialRewriteCond (fd : FuncDecl) : Bool :=
  fd.name == "DialContext" && fd.recv.isSome

/-- The rewrite-pass listen condition of `createReplacedNetSource`:
`funcName == "Listen" && funcDecl.Recv == nil`. -/
def listenRewriteCond (fd : FuncDecl) : Bool :=
  fd.name == "Listen" && fd.recv.isNone

/-- One iteration of the rewrite loop: replace the body of a function
declaration matching one of the two rewrite conditions; leave every other
declaration untouched. -/
def replaceDecl : Decl → Decl
  | Decl.func fd =>
    if dialRewriteCond fd then Decl.func { fd with body := some dialContextBody }
    else if listenRewriteCond fd then Decl.func { fd with body := some listenBody }
    else Decl.func fd
  | d => d

/-- The `foundDialContext` flag set by the rewrite loop. -/
def foundDial (decls : List Decl) : Bool :=
  decls.any fun d =>
    match d with
    | Decl.func fd => dialRewriteCond fd
    | _ => false

/-- The `foundListen` flag set by the rewrite loop. -/
def foundListen (decls : List Decl) : Bool :=
  decls.any fun d =>
    match d with
    | Decl.func fd => listenRewriteCond fd
    | _ => false

/-- The appended `_dialContext` stub declaration with its `go:linkname`
directive comment. -/
def dialContextFuncDecl : FuncDecl :=
  { doc := ["//go:linkname _dialContext github.com/goccy/wasi-go-net/wasip1.DialContext"]
    name := "_dialContext"
    recv := none
    params :=
      [ { names := ["ctx"], type := Expr.select (Expr.ident "context") "Context" }
      , { names := ["network"], type := Expr.ident "string" }
      , { names := ["address"], type := Expr.ident "string" } ]
    results :=
      [ { names := [], type := Expr.ident "Conn" }
      , { names := [], type := Expr.ident "error" } ]
    body := none }

/-- The appended `_listen` stub declaration with its `go:linkname`
directive comment. -/
def listenFuncDecl : FuncDecl :=
  { doc := ["//go:linkname _listen github.com/goccy/wasi-go-net/wasip1.Listen"]
    name := "_listen"
    recv := none
    params :=
      [ { names := ["network"], type := Expr.ident "string" }
      , { names := ["address"], type := Expr.ident "string" } ]
    results :=
      [ { names := [], type := Expr.ident "Listener" }
      , { names := [], type := Expr.ident "error" } ]
    body := none }

/-- Model of `createReplacedNetSource`, after the file at `path` has been read and
parsed into `astFile`: import hygiene, body replacement, the
no-target-functions check, and stub appending.  The final `format.Node`
rendering is the identity on the tree and is not modelled. -/
def createReplacedNetSource (path : String) (astFile : AstFile) : Except String AstFile :=
  if !foundDial (addUnsafeImport astFile).decls && !foundListen (addUnsafeImport astFile).decls then
    Except.error ("no target functions (DialContext or Listen) found in " ++ path)
  else
    Except.ok
      { imports := (addUnsafeImport astFile).imports
        decls := (addUnsafeImport astFile).decls.map replaceDecl
          ++ (if foundDial (addUnsafeImport astFile).decls then [Decl.func dialContextFuncDecl] else [])
          ++ (if foundListen (addUnsafeImport astFile).decls then [Decl.func listenFuncDecl] else []) }

/-! ## `GetReplacedNetSources` -/

/-- A rewritten source: original path and rewritten content (here the
rewritten tree, since rendering is not modelled). -/
structure ReplacedNetSource where
  Path : String
  Content : AstFile

/-- Disk contents seen by the program: the candidate files keyed by path;
`none` models a file that cannot be read or parsed. -/
def lookupFile (files : List (String × Option AstFile)) (p : String) : Option AstFile :=
  match files.find? fun e => e.1 == p with
  | some e => e.2
  | none => none

/-- Model of `createReplacedNetSource` as called on a path: re-read and re-parse the
file, then rewrite it. -/
def createReplacedNetSourceAt (files : List (String × Option AstFile)) (p : String) :
    Except String AstFile :=
  match lookupFile files p with
  | none => Except.error ("failed to parse file " ++ p)
  | some f => createReplacedNetSource p f

/-- The rewriting loop of `GetReplacedNetSources`: rewrite each path in
order, aborting on the first error. -/
def buildSources (files : List (String × Option AstFile)) :
    List String → Except String (List ReplacedNetSource)
  | [] => Except.ok []
  | p :: ps =>
    match createReplacedNetSourceAt files p with
    | Except.error e => Except.error e
    | Except.ok content =>
      match buildSources files ps with
      | Except.error e => Except.error e
      | Except.ok rest => Except.ok ({ Path := p, Content := content } :: rest)

/-- Model of `GetReplacedNetSources`, with the discovered candidate files passed
explicitly (the `go env GOROOT` subprocess and directory walk are the
caller's concern): match, fail when nothing matched, then rewrite each
matched file. -/
def GetReplacedNetSources (files : List (String × Option AstFile)) :
    Except String (List ReplacedNetSource) :=
  if (findSourcePaths files [dialMatcher, listenMatcher]).length == 0 then
    Except.error "failed to find net package source files"
  else
    buildSources files (findSourcePaths files [dialMatcher, listenMatcher])

/-! ## OverlayBuilder: `CreateOverlayFile` and `OverlayFile.Close`

Temporary files are modelled by a filesystem state: a fresh-id counter and
the list of existing files (id, content), newest first.  `os.CreateTemp`
followed by `Write` becomes `createTemp`. -/

/-- The JSON values the program serializes: the overlay manifest object. -/
inductive Json where
  | num (n : Nat)
  | str (s : String)
  | obj (fields : List (String × Json))

/-- Contents of a file on disk in the model: a rewritten source tree, or
the serialized manifest object. -/
inductive FileContent where
  | src (f : AstFile)
  | manifest (j : Json)

/-- The filesystem state: next fresh temp-file id and the existing files. -/
structure FSState where
  nextId : Nat
  files : List (Nat × FileContent)

/-- Model of `os.CreateTemp` plus writing the content: allocates a fresh id. -/
def createTemp (st : FSState) (content : FileContent) : Nat × FSState :=
  (st.nextId, { nextId := st.nextId + 1, files := (st.nextId, content) :: st.files })

/-- Read a file back: the first entry with the given id. -/
def fsRead (st : FSState) (p : Nat) : Option FileContent :=
  match st.files.find? fun e => e.1 == p with
  | some e => some e.2
  | none => none

/-- Go map assignment `overlayMap[k] = v`: overwrite an existing key,
otherwise append. -/
def mapInsert (m : List (String × Nat)) (k : String) (v : Nat) : List (String × Nat) :=
  if m.any fun e => e.1 == k then
    m.map fun e => if e.1 == k then (k, v) else e
  else m ++ [(k, v)]

/-- Go `encoding/json` marshals a Go map with its keys in sorted order. -/
def sortObj (m : List (String × Nat)) : List (String × Nat) :=
  List.insertionSort (fun a b => a.1 ≤ b.1) m

/-- Model of `json.Marshal` of the wrapper map: the manifest object with its single
`Replace` field holding the overlay mapping. -/
def marshalOverlay (m : List (String × Nat)) : Json :=
  Json.obj [("Replace", Json.obj ((sortObj m).map fun e => (e.1, Json.num e.2)))]

/-- The handle returned by `CreateOverlayFile`: the manifest file path and
the per-source temp file paths. -/
structure OverlayFile where
  path : Nat
  tmpFilePaths : List Nat

/-- One iteration of the `CreateOverlayFile` loop: create a temp file with
the rewritten content, record its path, extend the overlay map. -/
def overlayStep (acc : List Nat × List (String × Nat) × FSState) (src : ReplacedNetSource) :
    List Nat × List (String × Nat) × FSState :=
  let (tmps, omap, s) := acc
  let (id, s2) := createTemp s (FileContent.src src.Content)
  (tmps ++ [id], mapInsert omap src.Path id, s2)

/-- Model of `CreateOverlayFile`: materialize every rewritten source into a temp
file, serialize the `Replace` mapping into a final temp file, and return
the handle (in the model temp creation and writes cannot fail, so the
always-successful path is total). -/
def CreateOverlayFile (srcs : List ReplacedNetSource) (st : FSState) : OverlayFile × FSState :=
  match srcs.foldl overlayStep ([], [], st) with
  | (tmps, omap, s) =>
    match createTemp s (FileContent.manifest (marshalOverlay omap)) with
    | (mid, s2) => ({ path := mid, tmpFilePaths := tmps }, s2)

/-- Model of `os.Remove`, with its error discarded by the caller: deleting a missing
file leaves the state unchanged. -/
def osRemove (st : FSState) (p : Nat) : FSState :=
  { st with files := st.files.filter fun e => e.1 != p }

/-- Model of `OverlayFile.Close`: remove the manifest file, then every tracked temp
file, ignoring every `os.Remove` error. -/
def OverlayFile.Close (f : OverlayFile) (st : FSState) : FSState :=
  f.tmpFilePaths.foldl osRemove (osRemove st f.path)

/-! ## SourceDiscovery: `netPkgGoFiles` and the `filepath.Walk` semantics

The directory tree under `GOROOT/src/net` is a rose tree whose children
are stored in lexical (visit) order; `errDir` is an entry whose stat or
directory read fails, so the walk callback is invoked with a non-nil
error there.  Since the callback returns that error, `filepath.Walk`
stops the entire walk; `netPkgGoFiles` discards the walk's error. -/

mutual
/-- A directory entry. -/
inductive FTree where
  | file (name : String)
  | dir (name : String) (children : FTreeList)
  | errDir (name : String)

/-- Children of a directory, in lexical (visit) order. -/
inductive FTreeList where
  | nil
  | cons (t : FTree) (ts : FTreeList)
end

/-- The base name of an entry. -/
def FTree.name : FTree → String
  | .file n => n
  | .dir n _ => n
  | .errDir n => n

/-- Model of `filepath.Ext`: the suffix from the final dot, empty when there is no
dot. -/
def fileExt (name : String) : String :=
  if (name.data.reverse.takeWhile fun c => c != '.').length == name.data.length then ""
  else "." ++ String.mk (name.data.reverse.takeWhile fun c => c != '.').reverse

/-- Model of `strings.HasSuffix`. -/
def strEndsWith (s suf : String) : Bool :=
  List.isPrefixOf suf.data.reverse s.data.reverse

/-- The walk callback's filter: regular `.go` files that are not
`_test.go` files. -/
def isGoFileName (name : String) : Bool :=
  fileExt name == ".go" && !(strEndsWith name "_test.go")

mutual
/-- Walk one entry whose full path is `p`: collected `.go` paths plus an
abort flag (`true` once the callback has returned a non-nil error). -/
def walkGo : String → FTree → List String × Bool
  | p, .file n => (if isGoFileName n then [p] else [], false)
  | _, .errDir _ => ([], true)
  | p, .dir _ cs => walkChildren p cs

/-- Walk the children of the directory with full path `p` in order,
stopping at the first abort. -/
def walkChildren : String → FTreeList → List String × Bool
  | _, .nil => ([], false)
  | p, .cons t ts =>
    let r := walkGo (p ++ "/" ++ t.name) t
    if r.2 then r
    else
      let r2 := walkChildren p ts
      (r.1 ++ r2.1, r2.2)
end

/-- Model of `netPkgGoFiles`, given the resolved `net` package directory (full path
`root`, tree `t`): the walk's error is discarded (`_ = filepath.Walk`),
so the collected prefix is always returned without error. -/
def netPkgGoFiles (root : String) (t : FTree) : Except String (List String) :=
  Except.ok (walkGo root t).1

mutual
/-- All `.go` non-test files of the tree in visit order, as the walk would
collect them if no traversal error stopped it (nothing is known below an
unreadable entry). -/
def allGoFiles : String → FTree → List String
  | p, .file n => if isGoFileName n then [p] else []
  | _, .errDir _ => []
  | p, .dir _ cs => allGoFilesList p cs

/-- Version of `allGoFiles` over a child list. -/
def allGoFilesList : String → FTreeList → List String
  | _, .nil => []
  | p, .cons t ts => allGoFiles (p ++ "/" ++ t.name) t ++ allGoFilesList p ts
end

/-! ## Observables used by the specification statements -/

/-- The callee name when a body is a single `return f(...)` of an
identifier call. -/
def bodyCallee (fd : FuncDecl) : Option String :=
  match fd.body with
  | some [Stmt.ret [Expr.call (Expr.ident f) _]] => some f
  | _ => none

/-- The argument identifier names when a body is a single `return` of a
call. -/
def bodyArgNames (fd : FuncDecl) : Option (List String) :=
  match fd.body with
  | some [Stmt.ret [Expr.call _ args]] =>
    some (args.map fun e =>
      match e with
      | Expr.ident n => n
      | _ => "")
  | _ => none

/-- The formal parameter names of a declaration, in order. -/
def paramNames (fd : FuncDecl) : List String :=
  (fd.params.map Field.names).flatten

/-- All import specs contained in `token.IMPORT` general declarations of a
declaration list, in order. -/
def declImportSpecs : List Decl → List ImportSpec
  | [] => []
  | Decl.gen gd :: ds =>
    (if gd.tok == Tok.importTok then
      gd.specs.filterMap fun s =>
        match s with
        | Spec.importSpec i => some i
        | _ => none
    else []) ++ declImportSpecs ds
  | _ :: ds => declImportSpecs ds

/-! ## Shared helper lemmas -/

theorem createReplacedNetSource_ok {path : String} {f out : AstFile}
    (h : createReplacedNetSource path f = Except.ok out) :
    out = { imports := (addUnsafeImport f).imports
            decls := (addUnsafeImport f).decls.map replaceDecl
              ++ (if foundDial (addUnsafeImport f).decls then [Decl.func dialContextFuncDecl] else [])
              ++ (if foundListen (addUnsafeImport f).decls then [Decl.func listenFuncDecl] else []) } := by
  unfold createReplacedNetSource at h
  split at h
  · exact absurd h (by simp)
  · exact (Except.ok.inj h).symm

theorem addSpecToLastImport_cons (s : Spec) (d : Decl) (ds : List Decl) :
    addSpecToLastImport s (d :: ds) =
      match addSpecToLastImport s ds with
      | some ds2 => some (d :: ds2)
      | none =>
        match d with
        | Decl.gen gd =>
          if gd.tok == Tok.importTok then
            some (Decl.gen { gd with specs := gd.specs ++ [s] } :: ds)
          else none
        | _ => none := rfl

theorem any_addSpecToLastImport (q : Decl → Bool) (hq : ∀ gd, q (Decl.gen gd) = false)
    (s : Spec) : ∀ ds ds2, addSpecToLastImport s ds = some ds2 → ds2.any q = ds.any q := by
  intro ds
  induction ds with
  | nil => intro ds2 h; simp [addSpecToLastImport] at h
  | cons d rest ih =>
    intro ds2 h
    rw [addSpecToLastImport_cons] at h
    cases hrec : addSpecToLastImport s rest with
    | some rest2 =>
      rw [hrec] at h
      cases h
      simp [List.any_cons, ih rest2 hrec]
    | none =>
      rw [hrec] at h
      match d, h with
      | Decl.gen gd, h =>
        by_cases htok : gd.tok == Tok.importTok
        · simp only [htok, if_true] at h
          cases h
          simp [List.any_cons, hq]
        · simp [htok] at h

theorem foundDial_addUnsafeImport (f : AstFile) :
    foundDial (addUnsafeImport f).decls = foundDial f.decls := by
  unfold addUnsafeImport
  split
  · rfl
  · cases hrec : addSpecToLastImport (Spec.importSpec unsafeImportSpec) f.decls with
    | some ds2 =>
      simp only [hrec]
      exact any_addSpecToLastImport _ (fun _ => rfl) _ f.decls ds2 hrec
    | none => simp [hrec, foundDial, List.any_cons]

theorem foundListen_addUnsafeImport (f : AstFile) :
    foundListen (addUnsafeImport f).decls = foundListen f.decls := by
  unfold addUnsafeImport
  split
  · rfl
  · cases hrec : addSpecToLastImport (Spec.importSpec unsafeImportSpec) f.decls with
    | some ds2 =>
      simp only [hrec]
      exact any_addSpecToLastImport _ (fun _ => rfl) _ f.decls ds2 hrec
    | none => simp [hrec, foundListen, List.any_cons]

theorem buildSources_ok_length (files : List (String × Option AstFile)) :
    ∀ ps res, buildSources files ps = Except.ok res → res.length = ps.length := by
  intro ps
  induction ps with
  | nil => intro res h; cases h; rfl
  | cons p rest ih =>
    intro res h
    unfold buildSources at h
    cases h1 : createReplacedNetSourceAt files p with
    | error e => rw [h1] at h; cases h
    | ok content =>
      rw [h1] at h
      cases h2 : buildSources files rest with
      | error e => rw [h2] at h; cases h
      | ok tail =>
        rw [h2] at h
        cases h
        simp [ih tail h2]

theorem fsstate_eq {a b : FSState} (h1 : a.nextId = b.nextId) (h2 : a.files = b.files) :
    a = b := by
  cases a; cases b; simp_all

theorem close_foldl_files (l : List Nat) :
    ∀ st : FSState,
      (l.foldl osRemove st).files = st.files.filter (fun e => !(l.contains e.1)) ∧
      (l.foldl osRemove st).nextId = st.nextId := by
  induction l with
  | nil =>
    intro st
    refine ⟨?_, rfl⟩
    simp
  | cons p ps ih =>
    intro st
    refine ⟨?_, ?_⟩
    · show ((ps.foldl osRemove (osRemove st p)).files = _)
      rw [(ih (osRemove st p)).1]
      show ((st.files.filter fun e => e.1 != p).filter fun e => !(ps.contains e.1)) = _
      rw [List.filter_filter]
      refine List.filter_congr fun e _ => ?_
      cases h1 : e.1 == p <;> cases h2 : ps.contains e.1 <;>
        simp only [List.contains_cons, h1, h2, bne, Bool.not_true, Bool.not_false,
          Bool.or_false, Bool.or_true, Bool.false_or, Bool.true_or, Bool.and_true,
          Bool.and_false, Bool.true_and, Bool.false_and]
    · show ((ps.foldl osRemove (osRemove st p)).nextId = _)
      rw [(ih (osRemove st p)).2]
      rfl

theorem close_files (f : OverlayFile) (st : FSState) :
    (OverlayFile.Close f st).files =
      st.files.filter (fun e => (e.1 != f.path) && !(f.tmpFilePaths.contains e.1)) ∧
    (OverlayFile.Close f st).nextId = st.nextId := by
  unfold OverlayFile.Close
  obtain ⟨h1, h2⟩ := close_foldl_files f.tmpFilePaths (osRemove st f.path)
  refine ⟨?_, h2⟩
  rw [h1]
  show ((st.files.filter fun e => e.1 != f.path).filter fun e => !(f.tmpFilePaths.contains e.1)) = _
  rw [List.filter_filter]
  refine List.filter_congr fun e _ => ?_
  cases h3 : e.1 != f.path <;> cases h4 : f.tmpFilePaths.contains e.1 <;> simp_all

/-- C8: `OverlayFile.Close` deletes exactly the manifest file and the
tracked temporary files (every `os.Remove` error being discarded, it is a
total function on filesystem states and tolerates already-missing files),
and closing a second time leaves the filesystem state unchanged. -/
theorem c8_close_idempotent (f : OverlayFile) (st : FSState) :
    (∀ e, e ∈ (OverlayFile.Close f st).files ↔
      e ∈ st.files ∧ e.1 ≠ f.path ∧ e.1 ∉ f.tmpFilePaths) ∧
    OverlayFile.Close f (OverlayFile.Close f st) = OverlayFile.Close f st := by
  refine ⟨?_, ?_⟩
  · intro e
    rw [(close_files f st).1, List.mem_filter]
    constructor
    · rintro ⟨hm, hP⟩
      simp only [Bool.and_eq_true, bne_iff_ne, ne_eq, Bool.not_eq_true'] at hP
      refine ⟨hm, hP.1, fun hin => ?_⟩
      have hel : f.tmpFilePaths.contains e.1 = true := List.elem_iff.mpr hin
      rw [hP.2] at hel
      cases hel
    · rintro ⟨hm, hp, hc⟩
      exact ⟨hm, by simp [hp, hc]⟩
  · refine fsstate_eq ?_ ?_
    · rw [(close_files f (OverlayFile.Close f st)).2, (close_files f st).2]
    · rw [(close_files f (OverlayFile.Close f st)).1, (close_files f st).1,
        List.filter_filter]
      refine List.filter_congr fun e _ => ?_
      cases h : (e.1 != f.path) && !(f.tmpFilePaths.contains e.1) <;> simp [h]

/-- C7: the working set returned by `findSourcePaths` contains each path
at most once, is sorted lexicographically, and holds exactly the candidate
paths whose parsed file satisfies one of the matchers. -/
theorem c7_working_set_sorted (files : List (String × Option AstFile))
    (matchers : List (FuncDecl → Bool)) :
    (findSourcePaths files matchers).Nodup ∧
    (findSourcePaths files matchers).Sorted (· ≤ ·) ∧
    ∀ p, p ∈ findSourcePaths files matchers ↔
      ∃ e ∈ files, e.1 = p ∧ fileMatches matchers e.2 = true := by
  refine ⟨?_, ?_, ?_⟩
  · exact ((List.perm_insertionSort _ _).nodup_iff).mpr (List.nodup_dedup _)
  · exact List.sorted_insertionSort _ _
  · intro p
    unfold findSourcePaths
    rw [List.mem_insertionSort, List.mem_dedup, List.mem_map]
    constructor
    · rintro ⟨e, he, rfl⟩
      rw [List.mem_filter] at he
      exact ⟨e, he.1, rfl, he.2⟩
    · rintro ⟨e, he, hpe, hm⟩
      exact ⟨e, List.mem_filter.mpr ⟨he, hm⟩, hpe⟩

/-- C10: the discovery-pass dial matcher rejects any method whose first
receiver field has no name (`func (*Dialer) DialContext(...)`), and a file
declaring only such a method is excluded from the working set. -/
theorem c10_unnamed_receiver (fd : FuncDecl) (fld : Field) (rest : List Field)
    (p : String) (imps : List ImportSpec)
    (h1 : fd.recv = some (fld :: rest)) (h2 : fld.names = []) :
    dialMatcher fd = false ∧
    findSourcePaths [(p, some { imports := imps, decls := [Decl.func fd] })]
      [dialMatcher, listenMatcher] = [] := by
  have hdm : dialMatcher fd = false := by
    unfold dialMatcher
    rw [h1]
    by_cases hn : fd.name != "DialContext"
    · simp [hn]
    · simp only [hn, if_false]
      simp [h2]
  refine ⟨hdm, ?_⟩
  have hlm : listenMatcher fd = false := by
    unfold listenMatcher
    rw [h1]
    simp
  unfold findSourcePaths
  have hfm : fileMatches [dialMatcher, listenMatcher]
      (some { imports := imps, decls := [Decl.func fd] }) = false := by
    simp [fileMatches, hdm, hlm]
  rw [List.filter_eq_nil_iff.mpr ?_]
  · rfl
  · intro e he
    rw [List.mem_singleton] at he
    subst he
    simp [hfm]

def c10Fld : Field := { names := [], type := Expr.star (Expr.ident "Dialer") }

def c10Decl : FuncDecl :=
  { doc := []
    name := "DialContext"
    recv := some [c10Fld]
    params :=
      [ { names := ["ctx"], type := Expr.select (Expr.ident "context") "Context" }
      , { names := ["network", "address"], type := Expr.ident "string" } ]
    results :=
      [ { names := [], type := Expr.ident "Conn" }
      , { names := [], type := Expr.ident "error" } ]
    body := some [Stmt.stmtOther "original body"] }

theorem c10_unnamed_receiver_witness :
    dialMatcher c10Decl = false ∧
    findSourcePaths [("dial.go", some { imports := [], decls := [Decl.func c10Decl] })]
      [dialMatcher, listenMatcher] = [] :=
  c10_unnamed_receiver c10Decl c10Fld [] "dial.go" [] rfl rfl

/-- C4 (amended): when no candidate file matches either predicate,
`GetReplacedNetSources` fails with the error message
`failed to find net package source files` (not the spec's literal
`no source files found`), and a successful result is never empty. -/
theorem c4_no_sources_error (files : List (String × Option AstFile)) :
    (findSourcePaths files [dialMatcher, listenMatcher] = [] →
      GetReplacedNetSources files = Except.error "failed to find net package source files") ∧
    (∀ res, GetReplacedNetSources files = Except.ok res → res ≠ []) := by
  constructor
  · intro h
    unfold GetReplacedNetSources
    rw [h]
    rfl
  · intro res h
    unfold GetReplacedNetSources at h
    split at h
    · cases h
    · rename_i hlen
      have hne : findSourcePaths files [dialMatcher, listenMatcher] ≠ [] := by
        intro hnil
        rw [hnil] at hlen
        simp at hlen
      have hlen2 := buildSources_ok_length files _ res h
      intro hres
      rw [hres] at hlen2
      exact hne (List.eq_nil_of_length_eq_zero hlen2.symm)

/-- C4 counterexample: with an empty candidate set the error message the
code produces differs from the message the claim states. -/
theorem c4_counterexample :
    GetReplacedNetSources [] = Except.error "failed to find net package source files" ∧
    "failed to find net package source files" ≠ "no source files found" :=
  ⟨rfl, by decide⟩

theorem c4_no_sources_error_witness :
    GetReplacedNetSources [("empty.go", none)] =
      Except.error "failed to find net package source files" :=
  (c4_no_sources_error [("empty.go", none)]).1 rfl

/-- C5: a parseable file in which no declaration satisfies either rewrite
condition makes `createReplacedNetSource` fail with the
no-target-functions error naming the file's path, returning no rewritten
content. -/
theorem c5_no_target_error (path : String) (f : AstFile)
    (h : ∀ fd : FuncDecl, Decl.func fd ∈ f.decls →
      dialRewriteCond fd = false ∧ listenRewriteCond fd = false) :
    createReplacedNetSource path f =
      Except.error ("no target functions (DialContext or Listen) found in " ++ path) := by
  have hd : foundDial f.decls = false := by
    rw [foundDial, List.any_eq_false]
    intro d hdmem
    cases d with
    | func fd => simpa using (h fd hdmem).1
    | gen gd => simp
    | declOther t => simp
  have hl : foundListen f.decls = false := by
    rw [foundListen, List.any_eq_false]
    intro d hdmem
    cases d with
    | func fd => simpa using (h fd hdmem).2
    | gen gd => simp
    | declOther t => simp
  unfold createReplacedNetSource
  rw [foundDial_addUnsafeImport, foundListen_addUnsafeImport, hd, hl]
  rfl

def c5Decl : FuncDecl :=
  { doc := []
    name := "ResolveTCPAddr"
    recv := none
    params := [ { names := ["network", "address"], type := Expr.ident "string" } ]
    results :=
      [ { names := [], type := Expr.ident "Addr" }
      , { names := [], type := Expr.ident "error" } ]
    body := some [Stmt.stmtOther "original body"] }

def c5File : AstFile := { imports := [], decls := [Decl.func c5Decl] }

theorem c5_no_target_error_witness :
    createReplacedNetSource "addr.go" c5File =
      Except.error ("no target functions (DialContext or Listen) found in " ++ "addr.go") :=
  c5_no_target_error "addr.go" c5File (by
    intro fd hmem
    have heq : Decl.func fd = Decl.func c5Decl := by
      simpa [c5File] using hmem
    injection heq with hfd
    subst hfd
    exact ⟨rfl, rfl⟩)

/-- C1 (amended): for every file that the rewriter accepts, the output
declarations are the (import-adjusted) input declarations rewritten by
`replaceDecl` followed by the appended stubs, and `replaceDecl` replaces a
function body exactly when the declaration is named `DialContext` with any
present receiver (the receiver's type is not checked) or named `Listen`
with no receiver; every other declaration is unchanged. -/
theorem c1_dial_replacement (path : String) (f out : AstFile)
    (h : createReplacedNetSource path f = Except.ok out) :
    out.decls = (addUnsafeImport f).decls.map replaceDecl
      ++ (if foundDial (addUnsafeImport f).decls then [Decl.func dialContextFuncDecl] else [])
      ++ (if foundListen (addUnsafeImport f).decls then [Decl.func listenFuncDecl] else []) ∧
    (∀ fd : FuncDecl, dialRewriteCond fd = true →
      replaceDecl (Decl.func fd) = Decl.func { fd with body := some dialContextBody }) ∧
    (∀ fd : FuncDecl, dialRewriteCond fd = false → listenRewriteCond fd = false →
      replaceDecl (Decl.func fd) = Decl.func fd) := by
  refine ⟨?_, ?_, ?_⟩
  · rw [createReplacedNetSource_ok h]
  · intro fd hd
    simp [replaceDecl, hd]
  · intro fd hd hl
    simp [replaceDecl, hd, hl]

def c1FooDial : FuncDecl :=
  { doc := []
    name := "DialContext"
    recv := some [{ names := ["f"], type := Expr.star (Expr.ident "Foo") }]
    params :=
      [ { names := ["ctx"], type := Expr.select (Expr.ident "context") "Context" }
      , { names := ["network", "address"], type := Expr.ident "string" } ]
    results :=
      [ { names := [], type := Expr.ident "Conn" }
      , { names := [], type := Expr.ident "error" } ]
    body := some [Stmt.stmtOther "original body"] }

def c1File : AstFile := { imports := [], decls := [Decl.func c1FooDial] }

def c1Out : AstFile :=
  { imports := [unsafeImportSpec]
    decls :=
      [ Decl.gen { tok := Tok.importTok, specs := [Spec.importSpec unsafeImportSpec] }
      , Decl.func { c1FooDial with body := some dialContextBody }
      , Decl.func dialContextFuncDecl ] }

/-- C1 counterexample: a `DialContext` method whose receiver is a pointer
to `Foo` fails the dial-predicate of the discovery matcher, yet the
rewriter still replaces its body with the `_dialContext` call. -/
theorem c1_counterexample :
    dialMatcher c1FooDial = false ∧
    createReplacedNetSource "dial.go" c1File = Except.ok c1Out ∧
    bodyCallee c1FooDial = none ∧
    bodyCallee { c1FooDial with body := some dialContextBody } = some "_dialContext" :=
  ⟨rfl, rfl, rfl, rfl⟩

theorem c1_dial_replacement_witness :
    c1Out.decls = (addUnsafeImport c1File).decls.map replaceDecl
      ++ (if foundDial (addUnsafeImport c1File).decls then [Decl.func dialContextFuncDecl] else [])
      ++ (if foundListen (addUnsafeImport c1File).decls then [Decl.func listenFuncDecl] else []) ∧
    replaceDecl (Decl.func c1FooDial) =
      Decl.func { c1FooDial with body := some dialContextBody } :=
  ⟨(c1_dial_replacement "dial.go" c1File c1Out rfl).1,
   (c1_dial_replacement "dial.go" c1File c1Out rfl).2.1 c1FooDial rfl⟩

/-- C2 (amended): a replaced `DialContext` body is always
`return _dialContext(ctx, network, address)` and a replaced `Listen` body
always `return _listen(network, address)` — the argument names are the
fixed identifiers `ctx`/`network`/`address`, not the original formal
parameter names of the declaration. -/
theorem c2_fixed_argument_names (path : String) (f out : AstFile) (i : Nat) (fd : FuncDecl)
    (h : createReplacedNetSource path f = Except.ok out)
    (hi : (addUnsafeImport f).decls[i]? = some (Decl.func fd)) :
    (dialRewriteCond fd = true →
      out.decls[i]? = some (Decl.func { fd with body := some dialContextBody }) ∧
      bodyArgNames { fd with body := some dialContextBody } = some ["ctx", "network", "address"]) ∧
    (listenRewriteCond fd = true →
      out.decls[i]? = some (Decl.func { fd with body := some listenBody }) ∧
      bodyArgNames { fd with body := some listenBody } = some ["network", "address"]) := by
  have hlen : i < (addUnsafeImport f).decls.length := by
    rcases List.getElem?_eq_some.mp hi with ⟨hb, _⟩
    exact hb
  have h1 : i < ((addUnsafeImport f).decls.map replaceDecl).length := by
    simpa using hlen
  have h2 : i < (((addUnsafeImport f).decls.map replaceDecl)
      ++ (if foundDial (addUnsafeImport f).decls then [Decl.func dialContextFuncDecl] else [])).length := by
    rw [List.length_append]
    omega
  have hdecls : out.decls = (addUnsafeImport f).decls.map replaceDecl
      ++ (if foundDial (addUnsafeImport f).decls then [Decl.func dialContextFuncDecl] else [])
      ++ (if foundListen (addUnsafeImport f).decls then [Decl.func listenFuncDecl] else []) := by
    rw [createReplacedNetSource_ok h]
  have hout : out.decls[i]? = some (replaceDecl (Decl.func fd)) := by
    rw [hdecls, List.getElem?_append_left h2, List.getElem?_append_left h1,
      List.getElem?_map, hi]
    rfl
  constructor
  · intro hdc
    rw [hout]
    exact ⟨by simp [replaceDecl, hdc], rfl⟩
  · intro hl
    have hrecv : fd.recv.isNone = true := by
      have hl2 : fd.name = "Listen" ∧ fd.recv.isNone = true := by
        simpa [listenRewriteCond] using hl
      exact hl2.2
    have hds : fd.recv.isSome = false := by
      cases hr : fd.recv <;> simp_all
    have hdc : dialRewriteCond fd = false := by
      unfold dialRewriteCond
      rw [hds]
      simp
    rw [hout]
    exact ⟨by simp [replaceDecl, hdc, hl], rfl⟩

def c2Dial : FuncDecl :=
  { doc := []
    name := "DialContext"
    recv := some [{ names := ["d"], type := Expr.star (Expr.ident "Dialer") }]
    params :=
      [ { names := ["c"], type := Expr.select (Expr.ident "context") "Context" }
      , { names := ["n", "a"], type := Expr.ident "string" } ]
    results :=
      [ { names := [], type := Expr.ident "Conn" }
      , { names := [], type := Expr.ident "error" } ]
    body := some [Stmt.stmtOther "original body"] }

def c2File : AstFile := { imports := [unsafeImportSpec], decls := [Decl.func c2Dial] }

def c2Out : AstFile :=
  { imports := [unsafeImportSpec]
    decls :=
      [ Decl.func { c2Dial with body := some dialContextBody }
      , Decl.func dialContextFuncDecl ] }

/-- C2 counterexample: a genuine `(*Dialer).DialContext` whose parameters
are named `c`, `n`, `a` is rewritten to forward `ctx, network, address`,
not its own parameter names. -/
theorem c2_counterexample :
    dialMatcher c2Dial = true ∧
    paramNames c2Dial = ["c", "n", "a"] ∧
    createReplacedNetSource "dial.go" c2File = Except.ok c2Out ∧
    bodyArgNames { c2Dial with body := some dialContextBody } = some ["ctx", "network", "address"] ∧
    bodyArgNames { c2Dial with body := some dialContextBody } ≠ some (paramNames c2Dial) :=
  ⟨rfl, rfl, rfl, rfl, by decide⟩

theorem c2_fixed_argument_names_witness :
    c2Out.decls[0]? = some (Decl.func { c2Dial with body := some dialContextBody }) ∧
    bodyArgNames { c2Dial with body := some dialContextBody } = some ["ctx", "network", "address"] :=
  (c2_fixed_argument_names "dial.go" c2File c2Out 0 c2Dial rfl rfl).1 rfl

theorem addUnsafeImport_true {f : AstFile} (hu : hasUnsafeImport f = true) :
    addUnsafeImport f = f := by
  unfold addUnsafeImport
  rw [hu]
  rfl

theorem addUnsafeImport_false_some {f : AstFile} {ds2 : List Decl}
    (hu : hasUnsafeImport f = false)
    (ha : addSpecToLastImport (Spec.importSpec unsafeImportSpec) f.decls = some ds2) :
    addUnsafeImport f = { imports := f.imports ++ [unsafeImportSpec], decls := ds2 } := by
  unfold addUnsafeImport
  rw [hu, ha]
  rfl

theorem addUnsafeImport_false_none {f : AstFile}
    (hu : hasUnsafeImport f = false)
    (ha : addSpecToLastImport (Spec.importSpec unsafeImportSpec) f.decls = none) :
    addUnsafeImport f =
      { imports := f.imports ++ [unsafeImportSpec]
        decls := Decl.gen { tok := Tok.importTok, specs := [Spec.importSpec unsafeImportSpec] }
          :: f.decls } := by
  unfold addUnsafeImport
  rw [hu, ha]
  rfl

theorem declImportSpecs_append (l1 l2 : List Decl) :
    declImportSpecs (l1 ++ l2) = declImportSpecs l1 ++ declImportSpecs l2 := by
  induction l1 with
  | nil => rfl
  | cons d ds ih =>
    cases d <;> simp [declImportSpecs, ih]

theorem declImportSpecs_map_replaceDecl (l : List Decl) :
    declImportSpecs (l.map replaceDecl) = declImportSpecs l := by
  induction l with
  | nil => rfl
  | cons d ds ih =>
    cases d with
    | func fd =>
      by_cases hd : dialRewriteCond fd
      · simp [replaceDecl, hd, declImportSpecs, ih]
      · by_cases hl : listenRewriteCond fd
        · simp [replaceDecl, hd, hl, declImportSpecs, ih]
        · simp [replaceDecl, hd, hl, declImportSpecs, ih]
    | gen gd => simp [replaceDecl, declImportSpecs, ih]
    | declOther t => simp [replaceDecl, declImportSpecs, ih]

theorem count_addSpecToLastImport (i : ImportSpec) :
    ∀ ds ds2, addSpecToLastImport (Spec.importSpec i) ds = some ds2 →
      (declImportSpecs ds2).count i = (declImportSpecs ds).count i + 1 := by
  intro ds
  induction ds with
  | nil => intro ds2 h; simp [addSpecToLastImport] at h
  | cons d rest ih =>
    intro ds2 h
    rw [addSpecToLastImport_cons] at h
    cases hrec : addSpecToLastImport (Spec.importSpec i) rest with
    | some rest2 =>
      rw [hrec] at h
      cases h
      cases d with
      | func fd =>
        simp only [declImportSpecs]
        exact ih rest2 hrec
      | gen gd =>
        simp only [declImportSpecs, List.count_append]
        rw [ih rest2 hrec]
        omega
      | declOther t =>
        simp only [declImportSpecs]
        exact ih rest2 hrec
    | none =>
      rw [hrec] at h
      match d, h with
      | Decl.gen gd, h =>
        by_cases htok : gd.tok == Tok.importTok
        · simp only [htok, if_true] at h
          cases h
          simp only [declImportSpecs, htok, if_true, List.filterMap_append,
            List.count_append]
          simp [List.count_cons]
          omega
        · simp [htok] at h

/-- C6 (amended): the rewriter checks only the import path: when any
existing import of path `"unsafe"` is present (side-effect marker or
not), nothing is added to the imports; when none is present, `_ "unsafe"`
is added once to the import metadata and the count of the marker spec in
the file's import declarations grows by exactly one. -/
theorem c6_import_hygiene (path : String) (f out : AstFile)
    (h : createReplacedNetSource path f = Except.ok out) :
    (hasUnsafeImport f = true →
      out.imports = f.imports ∧ declImportSpecs out.decls = declImportSpecs f.decls) ∧
    (hasUnsafeImport f = false →
      out.imports = f.imports ++ [unsafeImportSpec] ∧
      (declImportSpecs out.decls).count unsafeImportSpec =
        (declImportSpecs f.decls).count unsafeImportSpec + 1) := by
  have hrec := createReplacedNetSource_ok h
  have himp : out.imports = (addUnsafeImport f).imports := by rw [hrec]
  have hspecs : declImportSpecs out.decls = declImportSpecs (addUnsafeImport f).decls := by
    rw [hrec]
    show declImportSpecs ((addUnsafeImport f).decls.map replaceDecl ++ _ ++ _) = _
    rw [declImportSpecs_append, declImportSpecs_append, declImportSpecs_map_replaceDecl]
    have e1 : declImportSpecs
        (if foundDial (addUnsafeImport f).decls then [Decl.func dialContextFuncDecl] else [])
        = [] := by
      split <;> rfl
    have e2 : declImportSpecs
        (if foundListen (addUnsafeImport f).decls then [Decl.func listenFuncDecl] else [])
        = [] := by
      split <;> rfl
    rw [e1, e2]
    simp
  constructor
  · intro hu
    rw [himp, hspecs, addUnsafeImport_true hu]
    exact ⟨rfl, rfl⟩
  · intro hu
    cases hAdd : addSpecToLastImport (Spec.importSpec unsafeImportSpec) f.decls with
    | some ds2 =>
      rw [addUnsafeImport_false_some hu hAdd] at himp hspecs
      refine ⟨himp, ?_⟩
      rw [hspecs]
      exact count_addSpecToLastImport unsafeImportSpec f.decls ds2 hAdd
    | none =>
      rw [addUnsafeImport_false_none hu hAdd] at himp hspecs
      refine ⟨himp, ?_⟩
      rw [hspecs]
      simp only [declImportSpecs, List.count_append]
      simp [List.count_cons]
      omega

def c6Listen : FuncDecl :=
  { doc := []
    name := "Listen"
    recv := none
    params := [ { names := ["network", "address"], type := Expr.ident "string" } ]
    results :=
      [ { names := [], type := Expr.ident "Listener" }
      , { names := [], type := Expr.ident "error" } ]
    body := some [Stmt.stmtOther "original body"] }

/-- An ordinary (non side-effect) import of the `unsafe` package. -/
def plainUnsafeImport : ImportSpec := { name := none, path := "\"unsafe\"" }

def c6File : AstFile :=
  { imports := [plainUnsafeImport]
    decls :=
      [ Decl.gen { tok := Tok.importTok, specs := [Spec.importSpec plainUnsafeImport] }
      , Decl.func c6Listen ] }

def c6Out : AstFile :=
  { imports := [plainUnsafeImport]
    decls :=
      [ Decl.gen { tok := Tok.importTok, specs := [Spec.importSpec plainUnsafeImport] }
      , Decl.func { c6Listen with body := some listenBody }
      , Decl.func listenFuncDecl ] }

/-- C6 counterexample: a file importing `unsafe` without the blank name
already satisfies the rewriter's path-only check, so the rewritten output
contains no `_ "unsafe"` side-effect marker import at all — not exactly
one as claimed. -/
theorem c6_counterexample :
    hasUnsafeImport c6File = true ∧
    createReplacedNetSource "listen.go" c6File = Except.ok c6Out ∧
    (declImportSpecs c6Out.decls).count unsafeImportSpec = 0 ∧
    (c6Out.imports).count unsafeImportSpec = 0 :=
  ⟨rfl, rfl, by decide, by decide⟩

theorem c6_import_hygiene_witness :
    c1Out.imports = c1File.imports ++ [unsafeImportSpec] ∧
    (declImportSpecs c1Out.decls).count unsafeImportSpec =
      (declImportSpecs c1File.decls).count unsafeImportSpec + 1 :=
  (c6_import_hygiene "dial.go" c1File c1Out rfl).2 rfl

mutual
theorem walkGo_collected (p : String) (t : FTree) :
    ∃ rest, allGoFiles p t = (walkGo p t).1 ++ rest ∧
      ((walkGo p t).2 = false → rest = []) := by
  cases t with
  | file n =>
    refine ⟨[], ?_, fun _ => rfl⟩
    simp [walkGo, allGoFiles]
  | errDir n =>
    refine ⟨[], ?_, fun _ => rfl⟩
    simp [walkGo, allGoFiles]
  | dir n cs =>
    simpa [walkGo, allGoFiles] using walkChildren_collected p cs

theorem walkChildren_collected (p : String) (ts : FTreeList) :
    ∃ rest, allGoFilesList p ts = (walkChildren p ts).1 ++ rest ∧
      ((walkChildren p ts).2 = false → rest = []) := by
  cases ts with
  | nil => exact ⟨[], rfl, fun _ => rfl⟩
  | cons t ts2 =>
    obtain ⟨r1, h1, h1f⟩ := walkGo_collected (p ++ "/" ++ t.name) t
    obtain ⟨r2, h2, h2f⟩ := walkChildren_collected p ts2
    by_cases hab : (walkGo (p ++ "/" ++ t.name) t).2 = true
    · refine ⟨r1 ++ allGoFilesList p ts2, ?_, ?_⟩
      · show allGoFiles (p ++ "/" ++ t.name) t ++ allGoFilesList p ts2 = _
        rw [h1]
        simp [walkChildren, hab, List.append_assoc]
      · intro hfalse
        simp [walkChildren, hab] at hfalse
    · refine ⟨r2, ?_, ?_⟩
      · show allGoFiles (p ++ "/" ++ t.name) t ++ allGoFilesList p ts2 = _
        rw [h1, h1f (by simpa using hab), h2]
        simp [walkChildren, hab, List.append_assoc]
      · intro hfalse
        apply h2f
        simpa [walkChildren, hab] using hfalse
end

/-- C9 (amended): a traversal error stops the whole walk, so the collected
working list is a prefix (in visit order) of all matching files — complete
exactly when no error occurred — and `netPkgGoFiles` itself always returns
that prefix without error (the walk error is discarded). -/
theorem c9_walk_aborts (p : String) (t : FTree) :
    (∃ rest, allGoFiles p t = (walkGo p t).1 ++ rest ∧
      ((walkGo p t).2 = false → rest = [])) ∧
    netPkgGoFiles p t = Except.ok (walkGo p t).1 :=
  ⟨walkGo_collected p t, rfl⟩

def c9Tree : FTree :=
  FTree.dir "net"
    (FTreeList.cons (FTree.errDir "bad")
      (FTreeList.cons (FTree.file "z.go") FTreeList.nil))

/-- C9 counterexample: an unreadable entry visited before `z.go` makes the
walk abort, so the matching file `net/z.go` outside the failing subtree is
not collected, although discovery still reports no error. -/
theorem c9_counterexample :
    netPkgGoFiles "net" c9Tree = Except.ok [] ∧
    allGoFiles "net" c9Tree = ["net/z.go"] ∧
    isGoFileName "z.go" = true := by
  refine ⟨?_, ?_, ?_⟩
  · simp [netPkgGoFiles, c9Tree, walkGo, walkChildren]
  · simp [allGoFiles, c9Tree, allGoFilesList, walkGo, isGoFileName]
    rfl
  · rfl

/-! ## C3: the overlay manifest -/

/-- The overlay map built by the loop when all paths are fresh: each source
path mapped to the consecutively allocated temp-file id. -/
def overlayMapOf : List ReplacedNetSource → Nat → List (String × Nat)
  | [], _ => []
  | s :: ss, n => (s.Path, n) :: overlayMapOf ss (n + 1)

/-- The temp files created by the loop, newest first. -/
def overlayFilesOf : List ReplacedNetSource → Nat → List (Nat × FileContent)
  | [], _ => []
  | s :: ss, n => overlayFilesOf ss (n + 1) ++ [(n, FileContent.src s.Content)]

/-- The temp-file ids recorded by the loop, in creation order. -/
def overlayIdsOf : List ReplacedNetSource → Nat → List Nat
  | [], _ => []
  | _ :: ss, n => n :: overlayIdsOf ss (n + 1)

theorem mapInsert_not_mem {m : List (String × Nat)} {k : String} (v : Nat)
    (h : (m.any fun e => e.1 == k) = false) : mapInsert m k v = m ++ [(k, v)] := by
  unfold mapInsert
  rw [h]
  rfl

theorem overlayMapOf_length : ∀ (ss : List ReplacedNetSource) (n : Nat),
    (overlayMapOf ss n).length = ss.length := by
  intro ss
  induction ss with
  | nil => intro n; rfl
  | cons s ss2 ih => intro n; simp [overlayMapOf, ih]

theorem mem_overlayMapOf : ∀ (ss : List ReplacedNetSource) (n : Nat) (e : String × Nat),
    e ∈ overlayMapOf ss n → ∃ k src, ss[k]? = some src ∧ e = (src.Path, n + k) := by
  intro ss
  induction ss with
  | nil => intro n e he; simp [overlayMapOf] at he
  | cons s ss2 ih =>
    intro n e he
    rw [overlayMapOf, List.mem_cons] at he
    cases he with
    | inl h => exact ⟨0, s, by simp, by simpa using h⟩
    | inr h =>
      obtain ⟨k, src, hk, hsrc⟩ := ih (n + 1) e h
      refine ⟨k + 1, src, by simpa using hk, ?_⟩
      rw [hsrc]
      simp [Nat.add_assoc, Nat.add_comm 1 k]

theorem mem_overlayMapOf_of_mem : ∀ (ss : List ReplacedNetSource) (n : Nat)
    (src : ReplacedNetSource), src ∈ ss → ∃ v, (src.Path, v) ∈ overlayMapOf ss n := by
  intro ss
  induction ss with
  | nil => intro n src h; simp at h
  | cons s ss2 ih =>
    intro n src h
    rw [List.mem_cons] at h
    cases h with
    | inl h => exact ⟨n, by rw [h, overlayMapOf]; exact List.mem_cons_self _ _⟩
    | inr h =>
      obtain ⟨v, hv⟩ := ih (n + 1) src h
      exact ⟨v, by rw [overlayMapOf]; exact List.mem_cons_of_mem _ hv⟩

theorem overlayFilesOf_find_lt : ∀ (ss : List ReplacedNetSource) (n m : Nat), m < n →
    (overlayFilesOf ss n).find? (fun e => e.1 == m) = none := by
  intro ss
  induction ss with
  | nil => intro n m _; rfl
  | cons s ss2 ih =>
    intro n m hlt
    rw [overlayFilesOf, List.find?_append, ih (n + 1) m (Nat.lt_succ_of_lt hlt)]
    have : (n == m) = false := by
      simp [Nat.ne_of_gt hlt]
    simp [List.find?, this]

theorem overlayFilesOf_find_eq : ∀ (ss : List ReplacedNetSource) (n k : Nat)
    (src : ReplacedNetSource), ss[k]? = some src →
    (overlayFilesOf ss n).find? (fun e => e.1 == n + k) =
      some (n + k, FileContent.src src.Content) := by
  intro ss
  induction ss with
  | nil => intro n k src h; simp at h
  | cons s ss2 ih =>
    intro n k src h
    cases k with
    | zero =>
      have hsrc : src = s := by simpa using h.symm
      rw [overlayFilesOf, List.find?_append,
        overlayFilesOf_find_lt ss2 (n + 1) (n + 0) (by omega)]
      simp [List.find?, hsrc]
    | succ k2 =>
      have h2 : ss2[k2]? = some src := by simpa using h
      have heq : n + (k2 + 1) = (n + 1) + k2 := by omega
      rw [overlayFilesOf, List.find?_append, heq, ih (n + 1) k2 src h2]
      rfl

theorem overlay_foldl :
    ∀ (srcs : List ReplacedNetSource) (tmps0 : List Nat) (omap0 : List (String × Nat))
      (st : FSState),
      (srcs.map ReplacedNetSource.Path).Nodup →
      (∀ s ∈ srcs, (omap0.any fun e => e.1 == s.Path) = false) →
      srcs.foldl overlayStep (tmps0, omap0, st) =
        (tmps0 ++ overlayIdsOf srcs st.nextId,
         omap0 ++ overlayMapOf srcs st.nextId,
         { nextId := st.nextId + srcs.length
           files := overlayFilesOf srcs st.nextId ++ st.files }) := by
  intro srcs
  induction srcs with
  | nil =>
    intro tmps0 omap0 st _ _
    simp [overlayIdsOf, overlayMapOf, overlayFilesOf]
  | cons s ss ih =>
    intro tmps0 omap0 st hnd h0
    have hndtail : (ss.map ReplacedNetSource.Path).Nodup := by
      rw [List.map_cons, List.nodup_cons] at hnd
      exact hnd.2
    have hhead : s.Path ∉ ss.map ReplacedNetSource.Path := by
      rw [List.map_cons, List.nodup_cons] at hnd
      exact hnd.1
    have hstep : overlayStep (tmps0, omap0, st) s =
        (tmps0 ++ [st.nextId], omap0 ++ [(s.Path, st.nextId)],
         { nextId := st.nextId + 1
           files := (st.nextId, FileContent.src s.Content) :: st.files }) := by
      unfold overlayStep createTemp
      dsimp only
      rw [mapInsert_not_mem st.nextId (h0 s (List.mem_cons_self _ _))]
    have h0tail : ∀ s2 ∈ ss,
        ((omap0 ++ [(s.Path, st.nextId)]).any fun e => e.1 == s2.Path) = false := by
      intro s2 hs2
      rw [List.any_append, h0 s2 (List.mem_cons_of_mem _ hs2)]
      have hne : (s.Path == s2.Path) = false := by
        have : s.Path ≠ s2.Path := by
          intro hcontra
          exact hhead (hcontra ▸ List.mem_map_of_mem ReplacedNetSource.Path hs2)
        simpa using this
      simp [List.any_cons, hne]
    rw [List.foldl_cons, hstep,
      ih (tmps0 ++ [st.nextId]) (omap0 ++ [(s.Path, st.nextId)]) _ hndtail h0tail]
    simp only [Prod.mk.injEq]
    refine ⟨?_, ?_, ?_⟩
    · rw [List.append_assoc]
      rfl
    · rw [List.append_assoc]
      rfl
    · refine fsstate_eq ?_ ?_
      · show st.nextId + 1 + ss.length = st.nextId + (s :: ss).length
        simp [List.length_cons]
        omega
      · show overlayFilesOf ss (st.nextId + 1) ++
            ((st.nextId, FileContent.src s.Content) :: st.files) =
          overlayFilesOf (s :: ss) st.nextId ++ st.files
        rw [overlayFilesOf, List.append_assoc]
        rfl

/-- C3: for pairwise-distinct input paths, the manifest file written by
`CreateOverlayFile` holds a single `Replace` object with exactly one entry
per input; every entry's key is one of the original paths and its value a
temp file whose content is that input's rewritten content, and every input
path appears among the keys. -/
theorem c3_manifest (srcs : List ReplacedNetSource) (st : FSState)
    (hnd : (srcs.map ReplacedNetSource.Path).Nodup) :
    ∃ entries : List (String × Nat),
      fsRead (CreateOverlayFile srcs st).2 (CreateOverlayFile srcs st).1.path =
        some (FileContent.manifest
          (Json.obj [("Replace", Json.obj (entries.map fun e => (e.1, Json.num e.2)))])) ∧
      entries.length = srcs.length ∧
      (∀ e ∈ entries, ∃ src ∈ srcs, e.1 = src.Path ∧
        fsRead (CreateOverlayFile srcs st).2 e.2 = some (FileContent.src src.Content)) ∧
      (∀ src ∈ srcs, ∃ e ∈ entries, e.1 = src.Path) := by
  have hfold := overlay_foldl srcs [] [] st hnd (fun s _ => rfl)
  have hco : CreateOverlayFile srcs st =
      ({ path := st.nextId + srcs.length, tmpFilePaths := overlayIdsOf srcs st.nextId },
       { nextId := st.nextId + srcs.length + 1
         files := (st.nextId + srcs.length,
             FileContent.manifest (marshalOverlay (overlayMapOf srcs st.nextId)))
           :: (overlayFilesOf srcs st.nextId ++ st.files) }) := by
    unfold CreateOverlayFile
    rw [hfold]
    simp only [List.nil_append]
    rfl
  refine ⟨sortObj (overlayMapOf srcs st.nextId), ?_, ?_, ?_, ?_⟩
  · rw [hco]
    unfold fsRead
    dsimp only
    rw [List.find?_cons_of_pos _ (by simp)]
    rfl
  · rw [sortObj, List.length_insertionSort, overlayMapOf_length]
  · intro e he
    have he2 : e ∈ overlayMapOf srcs st.nextId := by
      rw [sortObj] at he
      exact (List.mem_insertionSort _).mp he
    obtain ⟨k, src, hk, hePair⟩ := mem_overlayMapOf srcs st.nextId e he2
    have hkl : k < srcs.length := by
      rcases List.getElem?_eq_some.mp hk with ⟨hb, _⟩
      exact hb
    refine ⟨src, List.getElem?_mem hk, ?_, ?_⟩
    · rw [hePair]
    · rw [hePair, hco]
      unfold fsRead
      dsimp only
      rw [List.find?_cons_of_neg _ (by simp; omega)]
      rw [List.find?_append, overlayFilesOf_find_eq srcs st.nextId k src hk]
      rfl
  · intro src hs
    obtain ⟨v, hv⟩ := mem_overlayMapOf_of_mem srcs st.nextId src hs
    exact ⟨(src.Path, v), by rw [sortObj]; exact (List.mem_insertionSort _).mpr hv, rfl⟩

def c3SrcA : ReplacedNetSource := { Path := "a.go", Content := { imports := [], decls := [] } }

def c3SrcB : ReplacedNetSource :=
  { Path := "b.go", Content := { imports := [unsafeImportSpec], decls := [] } }

theorem c3_manifest_witness :
    ∃ entries : List (String × Nat),
      fsRead (CreateOverlayFile [c3SrcA, c3SrcB] ⟨0, []⟩).2
          (CreateOverlayFile [c3SrcA, c3SrcB] ⟨0, []⟩).1.path =
        some (FileContent.manifest
          (Json.obj [("Replace", Json.obj (entries.map fun e => (e.1, Json.num e.2)))])) ∧
      entries.length = ([c3SrcA, c3SrcB] : List ReplacedNetSource).length ∧
      (∀ e ∈ entries, ∃ src ∈ [c3SrcA, c3SrcB], e.1 = src.Path ∧
        fsRead (CreateOverlayFile [c3SrcA, c3SrcB] ⟨0, []⟩).2 e.2 =
          some (FileContent.src src.Content)) ∧
      (∀ src ∈ [c3SrcA, c3SrcB], ∃ e ∈ entries, e.1 = src.Path) :=
  c3_manifest [c3SrcA, c3SrcB] ⟨0, []⟩ (by simp [c3SrcA, c3SrcB])

end WasiGoNet
